import Mathlib

/-!
Verification development for the abliterator repository.

The weight-surgery core (`ModelAbliterator` in `model_abliterator.py`) is
embedded as a pure state machine.  Tensors are idealised as matrices of
rationals.  Python dictionaries that are mutated in place and shared through
shallow copies (`self.modified_layers` and the inner `"mlp"` / `"W_O"` dicts)
are modelled with an explicit heap of inner dictionaries addressed by
natural numbers, so that aliasing created by `dict.copy()` is represented
faithfully.  Tensor state is modelled by value: every weight mutation in the
source rebinds a whole matrix (`.data = replacement.to(device)`), never
writes into existing storage, so a value snapshot of the parameters is
observationally equivalent to the `state_dict()` snapshot of detached
tensors taken by the source.  Device moves (`.to(device)`, `.to("cpu")`)
are value-preserving and are dropped.
-/

/-- A weight matrix, idealised as a list of rows of rationals. -/
abbrev Mat := List (List ℚ)

/-- The per-layer list of `(previous_matrix, new_matrix)` pairs of the
ModificationLog. -/
abbrev PairList := List (Mat × Mat)

/-- One inner dictionary of `self.modified_layers` (the value of key
`"mlp"` or `"W_O"`): an association list from layer index to its pair
list. -/
abbrev InnerLog := List (Nat × PairList)

instance decEqInnerPair : DecidableEq (Nat × PairList) := inferInstance

instance decEqInnerLog : DecidableEq InnerLog := List.hasDecEq

instance decEqHeap : DecidableEq (List InnerLog) := List.hasDecEq

/-- Association-list update, modelling `d[layer] = value` on an inner
dictionary. -/
def innerSet (d : InnerLog) (k : Nat) (v : PairList) : InnerLog :=
  match d with
  | [] => [(k, v)]
  | (k2, v2) :: t => if k2 = k then (k, v) :: t else (k2, v2) :: innerSet t k v

/-- Replace the element at index `i` by `f` applied to it, leaving other
indices unchanged (used for `self.model.blocks[layer]` updates). -/
def modifyAt (l : List α) (i : Nat) (f : α → α) : List α :=
  match l, i with
  | [], _ => []
  | a :: t, 0 => f a :: t
  | a :: t, i + 1 => a :: modifyAt t i f

/-- One transformer block of the external model, holding the two matrices
the surgeon edits: `blocks[layer].attn.W_O` and `blocks[layer].mlp.W_out`. -/
structure Block where
  attnWO : Mat
  mlpWout : Mat
deriving DecidableEq

/-- The mutable state of a `ModelAbliterator` as far as weight surgery,
snapshotting and checkpointing observe it.  `heap` holds the inner
dictionaries of `self.modified_layers`; `mlMLP` and `mlWO` are the heap
addresses currently stored under the keys `"mlp"` and `"W_O"` of the outer
dict.  A checkpoint stores an outer-dict copy, i.e. the same two
addresses, exactly as `dict.copy()` does. -/
structure MAState where
  blocks : List Block
  blacklisted : List Nat
  heap : List InnerLog
  mlMLP : Nat
  mlWO : Nat
  checkpoints : List (Nat × Nat)
  modified : Bool
  originalBlocks : List Block
  currentState : Option (List Block × Nat × Nat × Bool)
deriving DecidableEq

/-- Dereference a heap address to the inner dictionary stored there. -/
def heapGet (s : MAState) (a : Nat) : InnerLog := s.heap.getD a []

/-- The observable value of the ModificationLog: the contents of the inner
dictionaries currently referenced by the outer keys `"mlp"` and `"W_O"`. -/
def logValue (s : MAState) : InnerLog × InnerLog :=
  (heapGet s s.mlMLP, heapGet s s.mlWO)

/-- The block at a layer index, as read by `self.model.blocks[layer]`. -/
def blockAt (s : MAState) (layer : Nat) : Block :=
  s.blocks.getD layer ⟨[], []⟩

/-- Models `self.modified_layers.get(layer, [])` as written in
`layer_attn` / `layer_mlp`: the outer dictionary has only the string keys
`"mlp"` and `"W_O"`, so a lookup with an integer layer key never hits and
always returns the default `[]`. -/
def outerGetInt (_s : MAState) (_layer : Nat) : PairList := []

/-- The state a fresh `ModelAbliterator.__init__` ends in (no cache file):
`modified_layers = {"mlp": {}, "W_O": {}}` allocates two fresh empty inner
dicts, `original_state` snapshots the parameters, `checkpoints = []`,
`modified = False`, empty blacklist, no open modification scope. -/
def initState (blocks : List Block) : MAState :=
  { blocks := blocks
    blacklisted := []
    heap := [[], []]
    mlMLP := 0
    mlWO := 1
    checkpoints := []
    modified := false
    originalBlocks := blocks
    currentState := none }

/-- `ModelAbliterator.layer_attn(layer, replacement)`.  With a replacement
on a non-blacklisted layer the source first rebinds
`blocks[layer].attn.W_O.data` to the replacement and only then builds the
log pair, so the first pair component is read back from the already
overwritten matrix; the spread `*self.modified_layers.get(layer, [])`
consults the outer dict with an integer key (see `outerGetInt`) and the
result is stored into the inner `"W_O"` dict in place.  Always returns the
current (post-write, if written) matrix. -/
def layer_attn (s : MAState) (layer : Nat) (replacement : Option Mat) :
    MAState × Mat :=
  match replacement with
  | none => (s, (blockAt s layer).attnWO)
  | some repl =>
    if layer ∈ s.blacklisted then (s, (blockAt s layer).attnWO)
    else
      let s1 : MAState :=
        { s with modified := true
                 blocks := modifyAt s.blocks layer (fun b => { b with attnWO := repl }) }
      let logged := (blockAt s1 layer).attnWO
      let entry := outerGetInt s1 layer ++ [(logged, repl)]
      let s2 : MAState :=
        { s1 with heap := s1.heap.set s1.mlWO (innerSet (heapGet s1 s1.mlWO) layer entry) }
      (s2, (blockAt s2 layer).attnWO)

/-- `ModelAbliterator.layer_mlp(layer, replacement)`, the `W_out` twin of
`layer_attn`, logging into the inner `"mlp"` dict. -/
def layer_mlp (s : MAState) (layer : Nat) (replacement : Option Mat) :
    MAState × Mat :=
  match replacement with
  | none => (s, (blockAt s layer).mlpWout)
  | some repl =>
    if layer ∈ s.blacklisted then (s, (blockAt s layer).mlpWout)
    else
      let s1 : MAState :=
        { s with modified := true
                 blocks := modifyAt s.blocks layer (fun b => { b with mlpWout := repl }) }
      let logged := (blockAt s1 layer).mlpWout
      let entry := outerGetInt s1 layer ++ [(logged, repl)]
      let s2 : MAState :=
        { s1 with heap := s1.heap.set s1.mlMLP (innerSet (heapGet s1 s1.mlMLP) layer entry) }
      (s2, (blockAt s2 layer).mlpWout)

/-- `ModelAbliterator.__enter__`: fails on nesting, otherwise snapshots the
parameters (`self.model.state_dict()`, detached tensors that later `.data`
rebinding cannot alter, hence a value copy of `blocks`), the outer
ModificationLog dict (`self.modified_layers.copy()`, a shallow copy: the
two inner-dict addresses, not their contents) and the dirty flag. -/
def enter (s : MAState) : Except String MAState :=
  match s.currentState with
  | some _ => .error "Cannot do multi-contexting"
  | none => .ok { s with currentState := some (s.blocks, s.mlMLP, s.mlWO, s.modified) }

/-- `ModelAbliterator.__exit__`: reloads the parameter snapshot, puts back
the saved outer ModificationLog dict (the saved addresses) and the saved
dirty flag, and closes the scope.  With no open scope the source would
raise `AttributeError`; the embedding returns the state unchanged, and no
theorem exercises that path. -/
def exitScope (s : MAState) : MAState :=
  match s.currentState with
  | none => s
  | some (blocks0, mlp0, wo0, mod0) =>
    { s with blocks := blocks0
             mlMLP := mlp0
             mlWO := wo0
             modified := mod0
             currentState := none }

/-- `ModelAbliterator.reset_state()`: clears the dirty flag, rebinds
`self.modified_layers` to `{"mlp": {}, "W_O": {}}` (two fresh empty inner
dicts) and reloads the original parameter snapshot. -/
def reset_state (s : MAState) : MAState :=
  { s with modified := false
           heap := s.heap ++ [[], []]
           mlMLP := s.heap.length
           mlWO := s.heap.length + 1
           blocks := s.originalBlocks }

/-- `ModelAbliterator.checkpoint()`: appends `self.modified_layers.copy()`
to the checkpoint list — a shallow copy, i.e. the outer dict record with
the same two inner-dict addresses. -/
def checkpoint (s : MAState) : MAState :=
  { s with checkpoints := s.checkpoints ++ [(s.mlMLP, s.mlWO)] }

/-- The value a checkpoint entry presents when read in state `s`: the
contents of the inner dicts at the addresses the entry stored. -/
def checkpointValue (s : MAState) (i : Nat) : InnerLog × InnerLog :=
  (heapGet s (s.checkpoints.getD i (0, 0)).1,
   heapGet s (s.checkpoints.getD i (0, 0)).2)

/-- Dot product of two rows, as used by the einsum in
`calculate_scaled_projection`. -/
def dotQ (a b : List ℚ) : ℚ := (List.zipWith (fun x y => x * y) a b).sum

/-- `ModelAbliterator.calculate_scaled_projection(components, direction)`:
each row `r` of the matrix becomes `(r . direction) * direction`. -/
def calculate_scaled_projection (m : Mat) (dir : List ℚ) : Mat :=
  m.map (fun row => dir.map (fun dj => dotQ row dir * dj))

/-- Elementwise matrix subtraction (`matrix - proj` on tensors). -/
def matSub (a b : Mat) : Mat :=
  List.zipWith (fun ra rb => List.zipWith (fun x y => x - y) ra rb) a b

/-- `ModelAbliterator.calculate_ortho_complement(components, direction)`:
`components - calculate_scaled_projection(components, direction)`. -/
def calculate_ortho_complement (m : Mat) (dir : List ℚ) : Mat :=
  matSub m (calculate_scaled_projection m dir)

/-- The body of the innermost loop of `apply_refusal_dirs` for one layer:
for each selected matrix kind in source order (`W_O` first, then `mlp`)
read the current matrix through the accessor, subtract its scaled
projection onto the direction, and write the result back through the same
accessor. -/
def surgeryStep (s : MAState) (dir : List ℚ) (wo mlp : Bool) (layer : Nat) :
    MAState :=
  let s1 :=
    if wo then
      let matrix := (layer_attn s layer none).2
      (layer_attn s layer (some (matSub matrix (calculate_scaled_projection matrix dir)))).1
    else s
  if mlp then
    let matrix := (layer_mlp s1 layer none).2
    (layer_mlp s1 layer (some (matSub matrix (calculate_scaled_projection matrix dir)))).1
  else s1

/-- `ModelAbliterator.apply_refusal_dirs(refusal_dirs, W_O, mlp, layers)`:
outer loop over directions, inner loop over the given layer list (the
source default is `range(1, n_layers)`; the claims quantify over arbitrary
lists), cumulative edits through `layer_attn` / `layer_mlp`. -/
def apply_refusal_dirs (s : MAState) (dirs : List (List ℚ)) (wo mlp : Bool)
    (layers : List Nat) : MAState :=
  dirs.foldl (fun acc dir => layers.foldl (fun acc2 l => surgeryStep acc2 dir wo mlp l) acc) s

/-!
Persistence (`save_activations` and the `cache_fname` branch of
`__init__`).  Serialisation flattens heap references to the dictionary
values they hold, so the bundle carries the dereferenced ModificationLog
and checkpoint contents.  An activation cache is carried opaquely.
-/

/-- An activation cache as persisted: keyed pooled activation matrices. -/
abbrev SavedCache := List (List Char × Mat)

/-- The serialised bundle `torch.save` writes: four fields in fixed
order. -/
abbrev Bundle :=
  SavedCache × SavedCache × Option (InnerLog × InnerLog) × Option (List (InnerLog × InnerLog))

/-- `ModelAbliterator.save_activations(fname)`: writes
`[harmful, harmless, modified_layers if modified_layers["mlp"] or
modified_layers["W_O"] else None, checkpoints if len(checkpoints) > 0
else None]`.  Arguments are the current values of those fields
(`mlMLP` / `mlWO` are the dereferenced inner `"mlp"` / `"W_O"` dicts). -/
def save_activations (harmful harmless : SavedCache) (mlMLP mlWO : InnerLog)
    (checkpoints : List (InnerLog × InnerLog)) : Bundle :=
  (harmful, harmless,
   if !mlMLP.isEmpty || !mlWO.isEmpty then some (mlMLP, mlWO) else none,
   if checkpoints.length > 0 then some checkpoints else none)

/-- The `cache_fname` branch of `ModelAbliterator.__init__` (lines 73-77):
`harmful, harmless, modified_layers, checkpoints = outs[:4]`, then
`self.checkpoints = checkpoints or []` (falsy `None` and `[]` both give
`[]`) but `self.modified_layers = modified_layers` with no such guard, so
a saved empty marker (`None`) is installed as the log itself. -/
def load_cache (b : Bundle) :
    SavedCache × SavedCache × Option (InnerLog × InnerLog) × List (InnerLog × InnerLog) :=
  (b.1, b.2.1, b.2.2.1,
   match b.2.2.2 with
   | none => []
   | some cs => if cs.isEmpty then [] else cs)

/-- The value `self.modified_layers` holds in a fresh session:
`{"mlp": {}, "W_O": {}}`, i.e. both inner dicts present and empty. -/
def freshModifiedLayers : Option (InnerLog × InnerLog) := some ([], [])

/-- The log-update step of `layer_attn` as it acts on a loaded
`modified_layers` value: `self.modified_layers["W_O"][layer] = entry`
subscripts the outer dict, which raises `TypeError` when the loaded value
is `None`. -/
def layerAttnLogUpdate (ml : Option (InnerLog × InnerLog)) (layer : Nat)
    (entry : PairList) : Except String (Option (InnerLog × InnerLog)) :=
  match ml with
  | none => .error "TypeError: NoneType object is not subscriptable"
  | some (mlMLP, mlWO) => .ok (some (mlMLP, innerSet mlWO layer entry))

/-!
The generation loop of `ModelAbliterator.generate_logits`.  The external
model forward pass is abstracted as a per-row next-token oracle taking the
token prefix fed at a step (`all_toks[row, : -max_tokens_generated + i]`,
i.e. the first `seq_len + i` buffer positions) and returning the argmax
token.  The loop is recorded as a trace: for every executed step, the rows
that were generating at its start and the tokens they emitted.
-/

/-- Static data of one `generate_logits` call. -/
structure GenCfg where
  model : List Nat → Nat
  negativeToks : List Nat
  eosTokenId : Nat
  dropRefusals : Bool
  stopAtEos : Bool

/-- Mutable data of the loop: the token buffer rows (each of length
`seq_len + max_tokens_generated`, initialised with trailing zeros), the
list of still-generating row indices, and the prompt length `seq_len`. -/
structure GenSt where
  allToks : List (List Nat)
  generating : List Nat
  seqLen : Nat
deriving DecidableEq

/-- One executed step of the loop: the rows generating at its start and
the tokens they emitted (in the same order). -/
structure StepRec where
  gen : List Nat
  toks : List Nat
deriving DecidableEq

/-- Write token `t` into row `r` at buffer position `pos`
(`all_toks[r, pos] = t`). -/
def writeTok (allToks : List (List Nat)) (r pos t : Nat) : List (List Nat) :=
  modifyAt allToks r (fun row => row.set pos t)

/-- Write the emitted tokens of one step into the generating rows, in
order (`all_toks[generating, -max_tokens_generated + i] = next_tokens`). -/
def writeAll (allToks : List (List Nat)) (gens toks : List Nat) (pos : Nat) :
    List (List Nat) :=
  match gens, toks with
  | r :: gs, t :: ts => writeAll (writeTok allToks r pos t) gs ts pos
  | _, _ => allToks

/-- The loop body of `generate_logits`, fuel-indexed by the remaining
step budget, `i` being the current step index.  Per step: feed each
generating row's prefix of length `seq_len + i` to the model, write the
argmax tokens at position `seq_len + i`, then (in source order) break for
the whole batch if `drop_refusals` and any emitted token is negative;
else, under `stop_at_eos`, recompute `generating` as the rows whose last
buffer element (`all_toks[i][-1]`, the final slot of the whole buffer, as
written) differs from the eos token id — skipping the recomputation when
`generating` is empty, since the source `for` loop over it never runs —
and break once `generating` is empty. -/
def genLoop (cfg : GenCfg) : Nat → GenSt → Nat → GenSt × List StepRec
  | 0, st, _ => (st, [])
  | fuel + 1, st, i =>
    let gen0 := st.generating
    let nexts := gen0.map (fun r => cfg.model ((st.allToks.getD r []).take (st.seqLen + i)))
    let st1 : GenSt := { st with allToks := writeAll st.allToks gen0 nexts (st.seqLen + i) }
    let rec1 : StepRec := ⟨gen0, nexts⟩
    if cfg.dropRefusals && nexts.any (fun t => cfg.negativeToks.contains t) then
      (st1, [rec1])
    else
      let st2 : GenSt :=
        if cfg.stopAtEos then
          { st1 with generating :=
              (if st1.generating.isEmpty then st1.generating
               else (List.range st1.allToks.length).filter
                  (fun r => !((st1.allToks.getD r []).getLastD 0 == cfg.eosTokenId))) }
        else st1
      if cfg.stopAtEos && st2.generating.isEmpty then (st2, [rec1])
      else
        let res := genLoop cfg fuel st2 (i + 1)
        (res.1, rec1 :: res.2)

/-- `ModelAbliterator.generate_logits(toks, ..., max_tokens_generated)`:
builds the zero-padded buffer, starts with every row generating, and runs
the loop for up to `maxTok` steps, returning the final buffer state and
the step trace. -/
def generate_logits (cfg : GenCfg) (toks : List (List Nat)) (maxTok : Nat) :
    GenSt × List StepRec :=
  let seqLen := (toks.headD []).length
  genLoop cfg maxTok
    { allToks := toks.map (fun row => row ++ List.replicate maxTok 0)
      generating := List.range toks.length
      seqLen := seqLen } 0

/-!
`measure_fn` from `util.py`.  One-dimensional tensors are idealised as
lists of rationals; the four torch reductions it dispatches to are
modelled below (a zero-dimensional result appears as a singleton list).
Error strings are built with an explicit quote character so they match the
source message exactly.
-/

/-- The single-quote character used by the source f-string. -/
def sqc : String := String.singleton (Char.ofNat 39)

/-- A reducer name wrapped in single quotes, as interpolated by the
source error message. -/
def quoteName (n : String) : String := sqc ++ n ++ sqc

/-- The keys of `avail_measures` in `measure_fn`, in source order. -/
def availMeasures : List String := ["mean", "median", "max", "stack"]

/-- `torch.mean` on a one-dimensional tensor: arithmetic mean. -/
def torch_mean (t : List ℚ) : List ℚ := [t.sum / t.length]

/-- Sorted insertion, helper for the median model. -/
def insortQ (x : ℚ) : List ℚ → List ℚ
  | [] => [x]
  | y :: t => if x ≤ y then x :: y :: t else y :: insortQ x t

/-- Insertion sort of a list of rationals. -/
def sortQ (t : List ℚ) : List ℚ := t.foldr insortQ []

/-- `torch.median` on a one-dimensional tensor: the lower middle element
of the sorted values. -/
def torch_median (t : List ℚ) : List ℚ := [(sortQ t).getD ((t.length - 1) / 2) 0]

/-- `torch.max` on a one-dimensional tensor: the largest element. -/
def torch_max (t : List ℚ) : List ℚ := [t.foldl max (t.headD 0)]

/-- `torch.stack` applied to a tensor viewed as a sequence of its
zero-dimensional elements: reassembles the same values. -/
def torch_stack (t : List ℚ) : List ℚ := t

/-- `measure_fn(measure, input_tensor)` from `util.py`: looks the reducer
name up in `avail_measures` and applies it; a missing key raises
`NotImplementedError` whose message interpolates the unknown name and
joins the quoted valid names with a comma. -/
def measure_fn (measure : String) (t : List ℚ) : Except String (List ℚ) :=
  if measure = "mean" then .ok (torch_mean t)
  else if measure = "median" then .ok (torch_median t)
  else if measure = "max" then .ok (torch_max t)
  else if measure = "stack" then .ok (torch_stack t)
  else .error ("Unknown measure function " ++ quoteName measure ++ ". Available measures:"
      ++ String.intercalate ", " (availMeasures.map quoteName))

/-!
`prepare_dataset` from `data.py`.  The sklearn `train_test_split` it
delegates to is an external collaborator: with `test_size=0.1` it sets
aside `ceil(n/10)` test elements, and with the fixed `random_state=42` it
is a deterministic function of its input; the exact shuffled selection is
opaque and modelled as a fixed deterministic one.  A Python value that is
either a bare element (when a length-2 input is unpacked as a pre-split
pair) or a list (a produced split) is modelled as a sum.
-/

/-- External `sklearn.model_selection.train_test_split(dataset,
test_size=0.1, random_state=42)`: a deterministic `(train, test)` split
with `ceil(n/10)` test elements. -/
def train_test_split (l : List α) : List α × List α :=
  let nTest := (l.length + 9) / 10
  (l.drop nTest, l.take nTest)

/-- `prepare_dataset(dataset)`: a length-2 input is unpacked directly as
`train, test = dataset`; any other length is split 90/10 by
`train_test_split`.  `none` covers only the unreachable arm of the
length-2 unpacking. -/
def prepare_dataset (dataset : List α) :
    Option ((α ⊕ List α) × (α ⊕ List α)) :=
  if dataset.length ≠ 2 then
    some (Sum.inr (train_test_split dataset).1, Sum.inr (train_test_split dataset).2)
  else
    match dataset with
    | [a, b] => some (Sum.inl a, Sum.inl b)
    | _ => none

/-!
The direction engine (`calculate_mean_dirs` / `refusal_dirs`).  Cached
pooled activations are idealised as rational vectors indexed by `Fin d`;
means stay in ℚ, while the final normalisation divides by the Euclidean
norm in ℝ, matching the float `v / v.norm()` of the source.  Site keys
are the strings `utils.get_act_name` produces, `"blocks.{layer}.{name}"`,
held as character lists so the `".0." not in key` filter can be modelled
as literal substring search.
-/

/-- A cached pooled activation row in `d_model` dimensions. -/
abbrev RVec (d : Nat) := Fin d → ℚ

/-- One cached site: its layer index, the hook name `get_act_name`
embeds after the layer (for example `hook_resid_pre`), and the pooled
harmful and harmless activation rows stored under its key. -/
structure SiteEntry (d : Nat) where
  layer : Nat
  name : List Char
  harmful : List (RVec d)
  harmless : List (RVec d)

/-- Decimal digits of a layer index, as its key substring. -/
def natToChars (n : Nat) : List Char := Nat.toDigits 10 n

/-- The cache key `transformer_lens.utils.get_act_name` yields:
`"blocks.{layer}.{name}"`. -/
def actKey (layer : Nat) (name : List Char) : List Char :=
  "blocks.".toList ++ natToChars layer ++ [Char.ofNat 46] ++ name

/-- Whether `needle` matches at the head of `hay`. -/
def subAt : List Char → List Char → Bool
  | [], _ => true
  | _ :: _, [] => false
  | a :: as, b :: bs => a = b && subAt as bs

/-- Whether `needle` occurs contiguously anywhere in `hay`, modelling the
Python `needle in key` substring test. -/
def hasSub (needle : List Char) : List Char → Bool
  | [] => needle.isEmpty
  | l@(_ :: t) => subAt needle l || hasSub needle t

/-- The substring `".0."` whose presence excludes a key in
`refusal_dirs`. -/
def layer0key : List Char := ['.', '0', '.']

/-- Mean over the row dimension (`torch.mean(cache[key], dim=0)`). -/
def rowMean (rows : List (RVec d)) : RVec d :=
  fun i => (rows.map (fun r => r i)).sum / rows.length

/-- `ModelAbliterator.calculate_mean_dirs(key)` restricted to the two
fields the callers read: `(harmful_mean, harmless_mean)`. -/
def calculate_mean_dirs (e : SiteEntry d) : RVec d × RVec d :=
  (rowMean e.harmful, rowMean e.harmless)

/-- Pointwise difference of rational vectors (tensor subtraction). -/
def vsubQ (a b : RVec d) : RVec d := fun i => a i - b i

/-- Cast a rational vector to a real one. -/
def ratVec (v : RVec d) : Fin d → ℝ := fun i => (v i : ℝ)

/-- The Euclidean norm `v.norm()` of a real vector. -/
noncomputable def vnorm (v : Fin d → ℝ) : ℝ :=
  Real.sqrt (Finset.univ.sum fun i => v i ^ 2)

/-- The normalisation `v / v.norm()` applied to each returned direction. -/
noncomputable def normalizeVec (v : Fin d → ℝ) : Fin d → ℝ :=
  fun i => v i / vnorm v

/-- `ModelAbliterator.refusal_dirs(invert)` on a cache whose keys carry
both splits: keep every site whose key does not contain `".0."`, take its
mean directions, form `harmful_mean - harmless_mean` (reversed under
`invert`), and normalise.  The source raises `IndexError("No cache")` on
an empty cache, a path no claim exercises; device moves are dropped. -/
noncomputable def refusal_dirs (cache : List (SiteEntry d)) (invert : Bool) :
    List (List Char × (Fin d → ℝ)) :=
  let meanDirs :=
    (cache.filter (fun e => !hasSub layer0key (actKey e.layer e.name))).map
      (fun e => (actKey e.layer e.name, calculate_mean_dirs e))
  let diffs :=
    if invert then meanDirs.map (fun kv => (kv.1, vsubQ kv.2.2 kv.2.1))
    else meanDirs.map (fun kv => (kv.1, vsubQ kv.2.1 kv.2.2))
  diffs.map (fun kv => (kv.1, normalizeVec (ratVec kv.2)))

/-- The difference vector `refusal_dirs` normalises for a given entry and
`invert` flag. -/
def diffOf (e : SiteEntry d) (invert : Bool) : RVec d :=
  if invert then vsubQ (calculate_mean_dirs e).2 (calculate_mean_dirs e).1
  else vsubQ (calculate_mean_dirs e).1 (calculate_mean_dirs e).2

/-- `ModelAbliterator.blacklist_layer(layer)` for a single layer: adds it
to the blacklist set. -/
def blacklist_layer (s : MAState) (layer : Nat) : MAState :=
  { s with blacklisted :=
      if layer ∈ s.blacklisted then s.blacklisted else s.blacklisted ++ [layer] }

/-!
Concrete two-layer scenarios exercising the surgery engine, used to
evaluate the embedded operations at specific inputs.
-/

/-- A two-layer model for the C1 scenario; layer 1 has `W_O = [[7]]`. -/
def c1s0 : MAState := initState [⟨[[5]], [[6]]⟩, ⟨[[7]], [[8]]⟩]

/-- First replacement matrix written in the C1 scenario. -/
def c1R : Mat := [[2]]

/-- Second replacement matrix written in the C1 scenario. -/
def c1R2 : Mat := [[3]]

/-- State after `layer_attn(1, c1R)`. -/
def c1s1 : MAState := (layer_attn c1s0 1 (some c1R)).1

/-- State after a second surgery `layer_attn(1, c1R2)` on the same layer. -/
def c1s2 : MAState := (layer_attn c1s1 1 (some c1R2)).1

/-- A two-layer model for the C2 scenario. -/
def c2s0 : MAState := initState [⟨[[5]], [[6]]⟩, ⟨[[7]], [[8]]⟩]

/-- State after entering the modification scope. -/
def c2s1 : MAState := (enter c2s0).toOption.getD c2s0

/-- State after `layer_attn(1, [[2]])` inside the scope. -/
def c2s2 : MAState := (layer_attn c2s1 1 (some [[2]])).1

/-- State after leaving the scope. -/
def c2s3 : MAState := exitScope c2s2

/-- A two-layer model for the C5 scenario. -/
def c5s0 : MAState := initState [⟨[[5]], [[6]]⟩, ⟨[[7]], [[8]]⟩]

/-- State after `checkpoint()` with a still-empty ModificationLog. -/
def c5s1 : MAState := checkpoint c5s0

/-- State after `layer_attn(1, [[2]])` following the checkpoint. -/
def c5s2 : MAState := (layer_attn c5s1 1 (some [[2]])).1

/-- A two-layer model with layer 1 blacklisted, for the C3 witness. -/
def c3s : MAState := blacklist_layer (initState [⟨[[4]], [[5]]⟩, ⟨[[6]], [[7]]⟩]) 1

/-- The replacement offered to the blacklisted layer in the C3 witness. -/
def c3r : Mat := [[9]]

/-- A small harmful activation cache persisted in the C6 scenario. -/
def c6Harmful : SavedCache := [(['h'], [[1]])]

/-- A small harmless activation cache persisted in the C6 scenario. -/
def c6Harmless : SavedCache := [(['g'], [[0]])]

/-- The bundle `save_activations` writes for a session with no edits and
no checkpoints. -/
def c6Bundle : Bundle := save_activations c6Harmful c6Harmless [] [] []

/-- The pair-list entry the first post-reload surgery tries to store. -/
def c6Entry : PairList := [([[2]], [[2]])]

/-- Generation setup for the C7 witness: every row emits 7 at step 0 and
the negative token 5 at step 1. -/
def c7cfg : GenCfg :=
  { model := fun p => if 2 ≤ p.length then 5 else 7
    negativeToks := [5]
    eosTokenId := 99
    dropRefusals := true
    stopAtEos := false }

/-- The step trace of the C7 witness run (2 rows, budget 3). -/
def c7trace : List StepRec := (generate_logits c7cfg [[1], [2]] 3).2

/-- Generation setup for the C8 scenario: with prompts `[1] [2] [3] [4]`,
row 2 (prompt `[3]`) emits the end marker 9 at step 2 (prefix length 3)
and every other emission is 7; refusal dropping is off, end-marker
stopping is on. -/
def c8cfg : GenCfg :=
  { model := fun p => if p.take 1 = [3] ∧ p.length = 3 then 9 else 7
    negativeToks := []
    eosTokenId := 9
    dropRefusals := false
    stopAtEos := true }

/-- The step trace of the C8 scenario run (4 rows, budget 5). -/
def c8trace : List StepRec := (generate_logits c8cfg [[1], [2], [3], [4]] 5).2

/-- The hook name of the single cached site in the C4 witness. -/
def c4name : List Char := "hook_resid_pre".toList

/-- The single cached site of the C4 witness: layer 1, one harmful row at
3 and one harmless row at 1 in one dimension. -/
def c4e : SiteEntry 1 :=
  { layer := 1
    name := c4name
    harmful := [fun _ => 3]
    harmless := [fun _ => 1] }

/-- The one-entry cache of the C4 witness. -/
def c4cache : List (SiteEntry 1) := [c4e]

/-- The direction `refusal_dirs` returns for the C4 witness cache. -/
noncomputable def c4pair : List Char × (Fin 1 → ℝ) :=
  (actKey 1 c4name, normalizeVec (ratVec (diffOf c4e false)))

instance decEqExcept {ε α : Type} [DecidableEq ε] [DecidableEq α] :
    DecidableEq (Except ε α) := fun a b =>
  match a, b with
  | .ok x, .ok y =>
    if h : x = y then .isTrue (by rw [h]) else .isFalse (by simp [h])
  | .error x, .error y =>
    if h : x = y then .isTrue (by rw [h]) else .isFalse (by simp [h])
  | .ok _, .error _ => .isFalse (by simp)
  | .error _, .ok _ => .isFalse (by simp)

theorem modifyAt_getD_ne {α : Type} (l : List α) (i j : Nat) (f : α → α) (d : α)
    (h : i ≠ j) : (modifyAt l i f).getD j d = l.getD j d := by
  induction l generalizing i j with
  | nil => simp [modifyAt]
  | cons a t ih =>
    cases i with
    | zero =>
      cases j with
      | zero => exact absurd rfl h
      | succ j2 => simp [modifyAt]
    | succ i2 =>
      cases j with
      | zero => simp [modifyAt]
      | succ j2 => simpa [modifyAt] using ih i2 j2 (fun hh => h (by rw [hh]))

theorem layer_attn_blacklisted (s : MAState) (L : Nat) (r : Mat)
    (hL : L ∈ s.blacklisted) :
    layer_attn s L (some r) = (s, (blockAt s L).attnWO) := by
  simp [layer_attn, hL]

theorem layer_mlp_blacklisted (s : MAState) (L : Nat) (r : Mat)
    (hL : L ∈ s.blacklisted) :
    layer_mlp s L (some r) = (s, (blockAt s L).mlpWout) := by
  simp [layer_mlp, hL]

theorem layer_attn_keeps_blacklist (s : MAState) (l : Nat) (r : Option Mat) :
    ((layer_attn s l r).1).blacklisted = s.blacklisted := by
  cases r with
  | none => rfl
  | some repl =>
    by_cases hl : l ∈ s.blacklisted
    · simp [layer_attn, hl]
    · simp [layer_attn, hl]

theorem layer_mlp_keeps_blacklist (s : MAState) (l : Nat) (r : Option Mat) :
    ((layer_mlp s l r).1).blacklisted = s.blacklisted := by
  cases r with
  | none => rfl
  | some repl =>
    by_cases hl : l ∈ s.blacklisted
    · simp [layer_mlp, hl]
    · simp [layer_mlp, hl]

theorem layer_attn_keeps_bl_block (s : MAState) (l : Nat) (r : Option Mat)
    (L : Nat) (hL : L ∈ s.blacklisted) :
    blockAt ((layer_attn s l r).1) L = blockAt s L := by
  cases r with
  | none => rfl
  | some repl =>
    by_cases hl : l ∈ s.blacklisted
    · simp [layer_attn, hl]
    · have hne : l ≠ L := fun hll => hl (hll ▸ hL)
      simp only [layer_attn, hl, if_neg]
      simp only [blockAt]
      exact modifyAt_getD_ne s.blocks l L _ _ hne

theorem layer_mlp_keeps_bl_block (s : MAState) (l : Nat) (r : Option Mat)
    (L : Nat) (hL : L ∈ s.blacklisted) :
    blockAt ((layer_mlp s l r).1) L = blockAt s L := by
  cases r with
  | none => rfl
  | some repl =>
    by_cases hl : l ∈ s.blacklisted
    · simp [layer_mlp, hl]
    · have hne : l ≠ L := fun hll => hl (hll ▸ hL)
      simp only [layer_mlp, hl, if_neg]
      simp only [blockAt]
      exact modifyAt_getD_ne s.blocks l L _ _ hne

theorem surgeryStep_keeps_blacklist (s : MAState) (dir : List ℚ) (wo mlp : Bool)
    (l : Nat) : (surgeryStep s dir wo mlp l).blacklisted = s.blacklisted := by
  unfold surgeryStep
  cases wo <;> cases mlp <;>
    simp [layer_attn_keeps_blacklist, layer_mlp_keeps_blacklist]

theorem surgeryStep_keeps_bl_block (s : MAState) (dir : List ℚ) (wo mlp : Bool)
    (l L : Nat) (hL : L ∈ s.blacklisted) :
    blockAt (surgeryStep s dir wo mlp l) L = blockAt s L := by
  unfold surgeryStep
  cases wo with
  | false =>
    cases mlp with
    | false => simp
    | true => simpa using layer_mlp_keeps_bl_block s l _ L hL
  | true =>
    cases mlp with
    | false => simpa using layer_attn_keeps_bl_block s l _ L hL
    | true =>
      simp only [if_pos]
      refine (layer_mlp_keeps_bl_block _ _ _ _ ?_).trans
        (layer_attn_keeps_bl_block s l _ L hL)
      rw [layer_attn_keeps_blacklist]
      exact hL

theorem foldl_layers_keeps_bl_block (dir : List ℚ) (wo mlp : Bool)
    (layers : List Nat) (s : MAState) (L : Nat) (hL : L ∈ s.blacklisted) :
    blockAt (layers.foldl (fun acc2 l => surgeryStep acc2 dir wo mlp l) s) L = blockAt s L
  ∧ (layers.foldl (fun acc2 l => surgeryStep acc2 dir wo mlp l) s).blacklisted = s.blacklisted := by
  induction layers generalizing s with
  | nil => exact ⟨rfl, rfl⟩
  | cons l t ih =>
    have hL1 : L ∈ (surgeryStep s dir wo mlp l).blacklisted := by
      rw [surgeryStep_keeps_blacklist]; exact hL
    have h := ih (surgeryStep s dir wo mlp l) hL1
    exact ⟨h.1.trans (surgeryStep_keeps_bl_block s dir wo mlp l L hL),
      h.2.trans (surgeryStep_keeps_blacklist s dir wo mlp l)⟩

theorem apply_refusal_dirs_keeps_bl_block (s : MAState) (dirs : List (List ℚ))
    (wo mlp : Bool) (layers : List Nat) (L : Nat) (hL : L ∈ s.blacklisted) :
    blockAt (apply_refusal_dirs s dirs wo mlp layers) L = blockAt s L := by
  unfold apply_refusal_dirs
  induction dirs generalizing s with
  | nil => rfl
  | cons dr t ih =>
    have h := foldl_layers_keeps_bl_block dr wo mlp layers s L hL
    have hL1 : L ∈ (layers.foldl (fun acc2 l => surgeryStep acc2 dr wo mlp l) s).blacklisted := by
      rw [h.2]; exact hL
    simpa [h.1] using ih (layers.foldl (fun acc2 l => surgeryStep acc2 dr wo mlp l) s) hL1

/-- Claim C1: the claim states that each surgery appends a pair whose
first component is the matrix value from before the overwrite, with
earlier pairs retained.  Evaluating the embedded `layer_attn` on a layer
whose matrix is `[[7]]` shows the logged pair after writing `[[2]]` is
`([[2]], [[2]])` — the first component is the replacement, read back
after the in-place overwrite, not the previous value `[[7]]` — and after
a second surgery writing `[[3]]` the layer's list is the single pair
`([[3]], [[3]])`: the earlier pair is not retained, because the spread
reads the outer dict with an integer key and always yields `[]`. -/
theorem c1_log_records_overwritten_value :
    (blockAt c1s0 1).attnWO = [[7]]
  ∧ heapGet c1s1 c1s1.mlWO = [(1, [(c1R, c1R)])]
  ∧ c1R ≠ (blockAt c1s0 1).attnWO
  ∧ heapGet c1s2 c1s2.mlWO = [(1, [(c1R2, c1R2)])] := by decide

/-- Claim C2: the claim states that scope exit restores the
ModificationLog because the entry snapshot is a deep copy.  Evaluating
the embedded scope on a session whose log is empty at entry, with one
`layer_attn` surgery inside the scope, shows the parameter values and the
dirty flag are restored on exit but the ModificationLog is not: the
shallow `dict.copy()` shares the inner `"mlp"` / `"W_O"` dicts, which the
surgery mutates in place, so after exit the log still contains the edit
made inside the scope. -/
theorem c2_scope_exit_does_not_restore_log :
    (enter c2s0).toOption.isSome = true
  ∧ logValue c2s1 = ([], [])
  ∧ c2s3.blocks = c2s0.blocks
  ∧ c2s3.modified = c2s0.modified
  ∧ logValue c2s3 = ([], [(1, [([[2]], [[2]])])])
  ∧ logValue c2s3 ≠ logValue c2s0 := by decide

/-- Claim C5: the claim states that no checkpoint entry is ever mutated
by later surgery.  Evaluating the embedded `checkpoint` on an empty log
followed by one `layer_attn` surgery shows the single checkpoint entry
reads `([], [])` when taken but `([], [(1, [([[2]], [[2]])])])` after the
surgery: `checkpoints.append(modified_layers.copy())` is a shallow copy
sharing the inner dicts that the surgery mutates in place. -/
theorem c5_checkpoint_entry_mutated_by_surgery :
    c5s1.checkpoints.length = 1
  ∧ checkpointValue c5s1 0 = ([], [])
  ∧ c5s2.checkpoints.length = 1
  ∧ checkpointValue c5s2 0 = ([], [(1, [([[2]], [[2]])])])
  ∧ checkpointValue c5s2 0 ≠ checkpointValue c5s1 0 := by decide

/-- Claim C6: the claim states that the save-then-load round trip
restores an empty ModificationLog to a state on which surgery works as in
a fresh session.  Evaluating the embedded bundle of a session with no
edits shows `save_activations` writes the empty marker `None` for the
log, the `cache_fname` load installs that `None` unguarded (unlike the
checkpoint field), and the log-update step of the first subsequent
surgery then fails with a `TypeError`, while it succeeds on the fresh
session value `{"mlp": {}, "W_O": {}}`. -/
theorem c6_empty_log_round_trip_breaks_surgery :
    c6Bundle.2.2.1 = none
  ∧ (load_cache c6Bundle).1 = c6Harmful
  ∧ (load_cache c6Bundle).2.1 = c6Harmless
  ∧ (load_cache c6Bundle).2.2.2 = []
  ∧ (load_cache c6Bundle).2.2.1 = none
  ∧ (load_cache c6Bundle).2.2.1 ≠ freshModifiedLayers
  ∧ layerAttnLogUpdate (load_cache c6Bundle).2.2.1 1 c6Entry
      = .error "TypeError: NoneType object is not subscriptable"
  ∧ layerAttnLogUpdate freshModifiedLayers 1 c6Entry
      = .ok (some ([], [(1, c6Entry)])) := by decide

/-- Claim C8: the claim states that a sequence whose last emitted token
equals the end marker is excluded from further generation steps.
Evaluating the embedded loop on a 4-row batch where row 2 emits the end
marker 9 at step 2 shows that at step 3 all four rows, row 2 included,
are still generating and each emits another token: the loop tests
`all_toks[i][-1]`, the final slot of the whole buffer, which is still the
initial 0 before the last step, instead of the last emitted token. -/
theorem c8_eos_sequence_not_excluded :
    (c8trace.getD 2 ⟨[], []⟩).toks = [7, 7, 9, 7]
  ∧ c8cfg.eosTokenId = 9
  ∧ (c8trace.getD 3 ⟨[], []⟩).gen = [0, 1, 2, 3]
  ∧ (c8trace.getD 3 ⟨[], []⟩).toks = [7, 7, 7, 7]
  ∧ c8trace.length = 5 := by decide

/-- Claim C3: for a blacklisted layer `L`, `layer_attn(L, replacement)`
and `layer_mlp(L, replacement)` leave the whole state — stored matrices,
ModificationLog and dirty flag — unchanged and return the current matrix,
and `apply_refusal_dirs` over any direction and layer lists never changes
the block of a blacklisted layer. -/
theorem c3_blacklisted_layer_never_written (s : MAState) (L : Nat)
    (hL : L ∈ s.blacklisted) (r : Mat) (dirs : List (List ℚ)) (wo mlp : Bool)
    (layers : List Nat) :
    layer_attn s L (some r) = (s, (blockAt s L).attnWO)
  ∧ layer_mlp s L (some r) = (s, (blockAt s L).mlpWout)
  ∧ blockAt (apply_refusal_dirs s dirs wo mlp layers) L = blockAt s L :=
  ⟨layer_attn_blacklisted s L r hL, layer_mlp_blacklisted s L r hL,
   apply_refusal_dirs_keeps_bl_block s dirs wo mlp layers L hL⟩

/-- Witness for C3 at a concrete state: layer 1 of a two-layer model is
blacklisted and a surgery pass over both layers is attempted. -/
theorem c3_blacklisted_layer_never_written_witness :
    1 ∈ c3s.blacklisted
  ∧ (layer_attn c3s 1 (some c3r) = (c3s, (blockAt c3s 1).attnWO)
    ∧ layer_mlp c3s 1 (some c3r) = (c3s, (blockAt c3s 1).mlpWout)
    ∧ blockAt (apply_refusal_dirs c3s [[2]] true true [0, 1]) 1 = blockAt c3s 1) :=
  ⟨by decide, c3_blacklisted_layer_never_written c3s 1 (by decide) c3r [[2]] true true [0, 1]⟩

/-- The tokens emitted at a step of the generation loop: each generating
row's prefix of length `seq_len + i` fed to the model. -/
def nextsOf (cfg : GenCfg) (st : GenSt) (i : Nat) : List Nat :=
  st.generating.map (fun r => cfg.model ((st.allToks.getD r []).take (st.seqLen + i)))

theorem genLoop_succ_shape (cfg : GenCfg) (fuel : Nat) (st : GenSt) (i : Nat) :
    (∃ stx, genLoop cfg (fuel + 1) st i = (stx, [⟨st.generating, nextsOf cfg st i⟩]))
  ∨ ((cfg.dropRefusals && (nextsOf cfg st i).any (fun t => cfg.negativeToks.contains t)) = false
      ∧ ∃ stx, genLoop cfg (fuel + 1) st i
          = ((genLoop cfg fuel stx (i + 1)).1,
             ⟨st.generating, nextsOf cfg st i⟩ :: (genLoop cfg fuel stx (i + 1)).2)) := by
  simp only [genLoop, nextsOf]
  repeat' split
  all_goals
    first
      | exact Or.inl ⟨_, rfl⟩
      | · refine Or.inr ⟨?_, _, rfl⟩
          simp_all

theorem genLoop_no_negative_before_last (cfg : GenCfg) (hdrop : cfg.dropRefusals = true) :
    ∀ (fuel : Nat) (st : GenSt) (i k : Nat),
      k + 1 < (genLoop cfg fuel st i).2.length →
      ((genLoop cfg fuel st i).2.getD k ⟨[], []⟩).toks.any
        (fun t => cfg.negativeToks.contains t) = false := by
  intro fuel
  induction fuel with
  | zero => intro st i k hk; simp [genLoop] at hk
  | succ fuel ih =>
    intro st i k hk
    rcases genLoop_succ_shape cfg fuel st i with ⟨stx, heq⟩ | ⟨hneg, stx, heq⟩
    · rw [heq] at hk; simp at hk
    · rw [heq] at hk ⊢
      cases k with
      | zero =>
        simp only [List.getD_cons_zero]
        rw [hdrop] at hneg
        simpa using hneg
      | succ k2 =>
        simp only [List.getD_cons_succ]
        simp only [List.length_cons] at hk
        exact ih stx (i + 1) k2 (by omega)

/-- Claim C7: with refusal dropping enabled, any step of a
`generate_logits` run at which some generating sequence emits a token
from the negative token set is the final executed step of the whole run:
the loop halts for the entire batch right after writing that step's
tokens, so no sequence receives a generated token at any later step. -/
theorem c7_drop_refusals_halts_batch (cfg : GenCfg) (toks : List (List Nat))
    (maxTok k : Nat) (hdrop : cfg.dropRefusals = true)
    (hk : k < (generate_logits cfg toks maxTok).2.length)
    (hneg : ((generate_logits cfg toks maxTok).2.getD k ⟨[], []⟩).toks.any
        (fun t => cfg.negativeToks.contains t) = true) :
    k = (generate_logits cfg toks maxTok).2.length - 1 := by
  by_contra hne
  have hlt : k + 1 < (generate_logits cfg toks maxTok).2.length := by omega
  have hfalse := genLoop_no_negative_before_last cfg hdrop maxTok _ 0 k hlt
  simp only [generate_logits] at hneg
  rw [hfalse] at hneg
  cases hneg

/-- Witness for C7: in the concrete run both rows emit the negative token
5 at step 1, and step 1 is the last of the trace. -/
theorem c7_drop_refusals_halts_batch_witness :
    c7cfg.dropRefusals = true
  ∧ 1 < c7trace.length
  ∧ ((c7trace.getD 1 ⟨[], []⟩).toks.any (fun t => c7cfg.negativeToks.contains t)) = true
  ∧ 1 = c7trace.length - 1 :=
  ⟨rfl, by decide, by decide,
   c7_drop_refusals_halts_batch c7cfg [[1], [2]] 3 1 rfl (by decide) (by decide)⟩

/-- Claim C9: for every reducer name outside `{mean, median, max, stack}`
`measure_fn` fails with the `NotImplementedError` message that spells out
exactly those four quoted names (never a silent fallback), and for every
name in the set it applies the corresponding torch reduction to its
input. -/
theorem c9_measure_fn_dispatch (m : String) (t : List ℚ) (hm : m ∉ availMeasures) :
    measure_fn m t =
      .error (("Unknown measure function " ++ quoteName m ++ ". Available measures:")
        ++ (quoteName "mean" ++ ", " ++ quoteName "median" ++ ", " ++ quoteName "max"
            ++ ", " ++ quoteName "stack"))
  ∧ measure_fn "mean" t = .ok (torch_mean t)
  ∧ measure_fn "median" t = .ok (torch_median t)
  ∧ measure_fn "max" t = .ok (torch_max t)
  ∧ measure_fn "stack" t = .ok (torch_stack t) := by
  have hm4 : ¬(m = "mean") ∧ ¬(m = "median") ∧ ¬(m = "max") ∧ ¬(m = "stack") := by
    simp [availMeasures] at hm
    tauto
  refine ⟨?_, rfl, rfl, rfl, rfl⟩
  simp only [measure_fn, if_neg hm4.1, if_neg hm4.2.1, if_neg hm4.2.2.1, if_neg hm4.2.2.2]
  congr 1

/-- Witness for C9 at the unknown reducer name `linear` and the input
tensor `[1, 2]`. -/
theorem c9_measure_fn_dispatch_witness :
    "linear" ∉ availMeasures
  ∧ (measure_fn "linear" [1, 2] =
      .error (("Unknown measure function " ++ quoteName "linear" ++ ". Available measures:")
        ++ (quoteName "mean" ++ ", " ++ quoteName "median" ++ ", " ++ quoteName "max"
            ++ ", " ++ quoteName "stack"))
    ∧ measure_fn "mean" [1, 2] = .ok (torch_mean [1, 2])
    ∧ measure_fn "median" [1, 2] = .ok (torch_median [1, 2])
    ∧ measure_fn "max" [1, 2] = .ok (torch_max [1, 2])
    ∧ measure_fn "stack" [1, 2] = .ok (torch_stack [1, 2])) :=
  ⟨by decide, c9_measure_fn_dispatch "linear" [1, 2] (by decide)⟩

/-- Claim C10: a length-2 input to `prepare_dataset` is returned as the
pair of its two elements, treated as an already split `(train, test)`
pair — in particular a flat list of exactly two instruction strings is
interpreted that way, each string becoming a whole split — while an input
of any other length is split deterministically with a 10 percent test
share (`ceil(n/10)` test elements, the rest train). -/
theorem c10_prepare_dataset_split {α : Type} (a b : α) (l : List α)
    (hl : l.length ≠ 2) :
    prepare_dataset [a, b] = some (Sum.inl a, Sum.inl b)
  ∧ prepare_dataset l = some (Sum.inr (train_test_split l).1, Sum.inr (train_test_split l).2)
  ∧ (train_test_split l).2.length = (l.length + 9) / 10
  ∧ (train_test_split l).1.length = l.length - (l.length + 9) / 10 := by
  refine ⟨rfl, ?_, ?_, ?_⟩
  · simp [prepare_dataset, hl]
  · simp only [train_test_split, List.length_take]
    omega
  · simp [train_test_split]

/-- Witness for C10: the two-string list is returned whole as a pair and
the three-string list is split 90/10. -/
theorem c10_prepare_dataset_split_witness :
    (["p", "q", "r"] : List String).length ≠ 2
  ∧ (prepare_dataset ["x", "y"] = some (Sum.inl "x", Sum.inl "y")
    ∧ prepare_dataset ["p", "q", "r"]
        = some (Sum.inr (train_test_split ["p", "q", "r"]).1,
                Sum.inr (train_test_split ["p", "q", "r"]).2)
    ∧ (train_test_split ["p", "q", "r"]).2.length
        = ((["p", "q", "r"] : List String).length + 9) / 10
    ∧ (train_test_split ["p", "q", "r"]).1.length
        = (["p", "q", "r"] : List String).length
          - ((["p", "q", "r"] : List String).length + 9) / 10) :=
  ⟨by decide, c10_prepare_dataset_split "x" "y" ["p", "q", "r"] (by decide)⟩

theorem subAt_self_append (n rest : List Char) : subAt n (n ++ rest) = true := by
  induction n with
  | nil => rfl
  | cons a t ih => simp [subAt, ih]

theorem hasSub_self_append (n rest : List Char) : hasSub n (n ++ rest) = true := by
  cases n with
  | nil =>
    cases rest with
    | nil => rfl
    | cons c t =>
      simp only [hasSub, List.nil_append, Bool.or_eq_true]
      exact Or.inl rfl
  | cons a t =>
    simp only [hasSub, List.cons_append, Bool.or_eq_true]
    exact Or.inl (by simpa using subAt_self_append (a :: t) rest)

theorem hasSub_mid (pre n rest : List Char) : hasSub n (pre ++ (n ++ rest)) = true := by
  induction pre with
  | nil => simpa using hasSub_self_append n rest
  | cons c t ih => simp [hasSub, ih]

theorem actKey_layer0_hasSub (name : List Char) :
    hasSub layer0key (actKey 0 name) = true := by
  have h : actKey 0 name = ['b', 'l', 'o', 'c', 'k', 's'] ++ (layer0key ++ name) := rfl
  rw [h]
  exact hasSub_mid _ _ _

theorem vnorm_normalizeVec {d : Nat} (v : Fin d → ℝ) (hv : v ≠ 0) :
    vnorm (normalizeVec v) = 1 := by
  have hex : ∃ i, v i ≠ 0 := by
    by_contra hno
    push_neg at hno
    exact hv (funext hno)
  obtain ⟨i0, hi0⟩ := hex
  have ha : 0 < Finset.univ.sum fun i => v i ^ 2 := by
    apply Finset.sum_pos'
    · intro i _
      positivity
    · exact ⟨i0, Finset.mem_univ i0, by positivity⟩
  have hsq : Real.sqrt (Finset.univ.sum fun i => v i ^ 2) ^ 2
      = Finset.univ.sum fun i => v i ^ 2 := Real.sq_sqrt ha.le
  unfold normalizeVec vnorm
  have hterm : ∀ i : Fin d,
      (v i / Real.sqrt (Finset.univ.sum fun j => v j ^ 2)) ^ 2
        = v i ^ 2 / Real.sqrt (Finset.univ.sum fun j => v j ^ 2) ^ 2 := by
    intro i
    rw [div_pow]
  rw [Finset.sum_congr rfl (fun i _ => hterm i), ← Finset.sum_div, hsq,
    div_self (ne_of_gt ha), Real.sqrt_one]

theorem ratVec_ne_zero {d : Nat} (v : RVec d) (hv : v ≠ 0) : ratVec v ≠ 0 := by
  intro h
  apply hv
  funext i
  have hi := congrFun h i
  simpa [ratVec] using hi

/-- Claim C4: every pair returned by `refusal_dirs` comes from a cached
site whose layer is not 0, carries that site's key, and equals the
normalisation of `harmful_mean - harmless_mean` (the reverse difference
under `invert`); whenever that difference is not the zero vector the
returned direction has Euclidean norm exactly 1. -/
theorem c4_refusal_dirs_unit_nonlayer0 {d : Nat} (cache : List (SiteEntry d))
    (invert : Bool) (p : List Char × (Fin d → ℝ))
    (hp : p ∈ refusal_dirs cache invert) :
    ∃ e ∈ cache, e.layer ≠ 0 ∧ p.1 = actKey e.layer e.name
      ∧ p.2 = normalizeVec (ratVec (diffOf e invert))
      ∧ (diffOf e invert ≠ 0 → vnorm p.2 = 1) := by
  unfold refusal_dirs at hp
  have hlayer : ∀ e : SiteEntry d, (!hasSub layer0key (actKey e.layer e.name)) = true →
      e.layer ≠ 0 := by
    intro e hfil h0
    have hfil2 : hasSub layer0key (actKey e.layer e.name) = false := by
      simpa using hfil
    rw [h0, actKey_layer0_hasSub e.name] at hfil2
    cases hfil2
  cases invert with
  | false =>
    simp only [if_neg, Bool.false_eq_true, not_false_iff, List.map_map,
      List.mem_map, List.mem_filter, Bool.not_eq_true, Function.comp] at hp
    obtain ⟨e, ⟨hemem, hefil⟩, hpeq⟩ := hp
    refine ⟨e, hemem, hlayer e hefil, ?_, ?_, ?_⟩
    · rw [← hpeq]
    · rw [← hpeq]
      simp [diffOf]
    · intro hdz
      rw [← hpeq]
      simp only [diffOf, if_neg] at hdz
      exact vnorm_normalizeVec _ (ratVec_ne_zero _ (by simpa [diffOf] using hdz))
  | true =>
    simp only [if_pos, List.map_map, List.mem_map, List.mem_filter,
      Bool.not_eq_true, Function.comp] at hp
    obtain ⟨e, ⟨hemem, hefil⟩, hpeq⟩ := hp
    refine ⟨e, hemem, hlayer e hefil, ?_, ?_, ?_⟩
    · rw [← hpeq]
    · rw [← hpeq]
      simp [diffOf]
    · intro hdz
      rw [← hpeq]
      exact vnorm_normalizeVec _ (ratVec_ne_zero _ (by simpa [diffOf] using hdz))

/-- Witness for C4 on the one-site cache at layer 1 with mean difference
2: the returned pair is exactly the key with the normalised difference,
and the difference is nonzero, so the norm-1 conclusion applies. -/
theorem c4_refusal_dirs_unit_nonlayer0_witness :
    c4pair ∈ refusal_dirs c4cache false
  ∧ diffOf c4e false ≠ 0
  ∧ (∃ e ∈ c4cache, e.layer ≠ 0 ∧ c4pair.1 = actKey e.layer e.name
      ∧ c4pair.2 = normalizeVec (ratVec (diffOf e false))
      ∧ (diffOf e false ≠ 0 → vnorm c4pair.2 = 1)) := by
  have hmem : c4pair ∈ refusal_dirs c4cache false := by
    have h : refusal_dirs c4cache false = [c4pair] := rfl
    rw [h]
    exact List.mem_singleton.mpr rfl
  have hdz : diffOf c4e false ≠ 0 := by
    intro h
    have h0 := congrFun h 0
    norm_num [diffOf, vsubQ, calculate_mean_dirs, rowMean, c4e] at h0
  exact ⟨hmem, hdz, c4_refusal_dirs_unit_nonlayer0 c4cache false c4pair hmem⟩
